import Mathlib

/-!
Verification development for the `image-wall` repository.

Part 1 embeds the justified-row layout engine of `src/core/imagewall.ts`
(`ImageWall.layout`): greedy row accumulation, exact-fill integer width
distribution, defensive reclassification of the last row, and absolute
positioning.  JavaScript numbers are modelled as exact rationals (`ℚ`);
integer pixel values as `ℤ`; the container inner width as an integer
(the source floors it and clamps to at least 1) and the gap as a natural
number of pixels.

Part 2 embeds the dual-layer lightbox viewer of `src/core/lightbox.ts`
(`LightBox.show/hide/next/prev` and the image `onload`/`onerror`
handlers) as an explicit state machine with a list of in-flight loads.
-/

namespace ImageWall

/-- JavaScript `Math.round`: round half away from zero for the values that
occur here (all comparisons are on exact rationals; `Math.round x` is
`⌊x + 1/2⌋` for every finite `x` except one float-specific corner that
cannot arise in the rational model). -/
def jround (q : ℚ) : ℤ := ⌊q + 1/2⌋

/-- The `lastRowAlign` option of `ImageWallOptions`. -/
inductive LastRowAlign where
  | left | center | justify | right
deriving DecidableEq

/-- A row produced by the first (accumulation) pass: the items' aspect
ratios, their floating widths at the row height, the exact row height, and
the stretch flag (source type `RowTemp`). -/
structure RowTemp where
  aspects : List ℚ
  floatWidths : List ℚ
  rowHFloat : ℚ
  stretch : Bool
deriving DecidableEq

/-- Projected width of a cursor at the target row height:
`aspectSum * targetH + gap * (count - 1)` (source line `expectedW`). -/
def expectedW (targetH : ℚ) (g : ℕ) (as : List ℚ) : ℚ :=
  as.sum * targetH + (g : ℚ) * ((as.length - 1 : ℕ) : ℚ)

/-- Exact height of a full row:
`(containerInner - gap * (count - 1)) / aspectSum`. -/
def rowHFor (C : ℤ) (g : ℕ) (as : List ℚ) : ℚ :=
  ((C : ℚ) - (g : ℚ) * ((as.length - 1 : ℕ) : ℚ)) / as.sum

/-- First pass of `ImageWall.layout`: greedily accumulate aspect ratios into
a cursor; when the projected width at the target height reaches the
container inner width, close the cursor as a full (stretch) row.  Returns
the closed rows and the leftover cursor. -/
def buildRowsAux (C : ℤ) (targetH : ℚ) (g : ℕ) :
    List ℚ → List ℚ → List RowTemp × List ℚ
  | [], cursor => ([], cursor)
  | a :: rest, cursor =>
    let cursor' := cursor ++ [a]
    if (C : ℚ) ≤ expectedW targetH g cursor' then
      let rowH := rowHFor C g cursor'
      let res := buildRowsAux C targetH g rest []
      (⟨cursor', cursor'.map (fun x => x * rowH), rowH, true⟩ :: res.1, res.2)
    else
      buildRowsAux C targetH g rest cursor'

/-- First pass plus last-row handling: a leftover cursor becomes a stretched
row under the `justify` policy (exact-fill height) and an unstretched row at
the target height otherwise. -/
def buildRows (C : ℤ) (targetH : ℚ) (g : ℕ) (align : LastRowAlign)
    (aspects : List ℚ) : List RowTemp :=
  let res := buildRowsAux C targetH g aspects []
  if res.2.isEmpty then res.1
  else if align = .justify then
    let rowH := rowHFor C g res.2
    res.1 ++ [⟨res.2, res.2.map (fun x => x * rowH), rowH, true⟩]
  else
    res.1 ++ [⟨res.2, res.2.map (fun x => x * targetH), targetH, false⟩]

/-- A row after the second (integer-width) pass (source type
`PositionedRow`). -/
structure PRow where
  widths : List ℤ
  height : ℤ
  stretch : Bool
deriving DecidableEq

/-- The `remaining < 0` guard of the distribution step: walk the floors from
the last to the first, decrementing each by at most `floor - 1` (never below
1 of its own value, and never below 0 of the remaining amount) until the
overshoot is consumed.  Mirrors the `for (let i = n-1; i >= 0; ...)` loop;
the recursion processes the tail (the later items) first. -/
def shrinkAux : List ℤ → ℤ → List ℤ × ℤ
  | [], t => ([], t)
  | f :: fs, t =>
    let res := shrinkAux fs t
    let dec := min (max 0 (f - 1)) res.2
    ((f - dec) :: res.1, res.2 - dec)

/-- Stable insertion into a list sorted by descending fractional part;
an element already in the list keeps its place on ties, so original order
breaks ties exactly as the stable JavaScript `Array.prototype.sort` does. -/
def insertByFracDesc (p : ℕ × ℚ) : List (ℕ × ℚ) → List (ℕ × ℚ)
  | [] => [p]
  | q :: qs => if p.2 ≤ q.2 then q :: insertByFracDesc p qs else p :: q :: qs

/-- Stable sort by descending fractional part (the
`fractions.sort((a, b) => b.frac - a.frac)` call). -/
def sortByFracDesc (l : List (ℕ × ℚ)) : List (ℕ × ℚ) :=
  l.foldl (fun acc p => insertByFracDesc p acc) []

/-- Number of extra pixels item `i` receives from the award loop
`for (let k = 0; k < remaining; k++) add[fractions[k % n].idx]++`. -/
def pixelAward (sortedIdx : List ℕ) (n r i : ℕ) : ℕ :=
  ((List.range r).filter (fun k => sortedIdx.getD (k % n) n = i)).length

/-- The floors of the floating widths. -/
def floorsOf (ws : List ℚ) : List ℤ := ws.map (fun w => ⌊w⌋)

/-- The floors after the `remaining < 0` guard (unchanged when the floor sum
does not overshoot the target). -/
def adjFloors (targetInner : ℤ) (ws : List ℚ) : List ℤ :=
  if targetInner - (floorsOf ws).sum < 0 then
    (shrinkAux (floorsOf ws) (-(targetInner - (floorsOf ws).sum))).1
  else floorsOf ws

/-- The pixel remainder after the guard (recomputed and clamped at 0 when the
guard ran). -/
def adjRemaining (targetInner : ℤ) (ws : List ℚ) : ℤ :=
  if targetInner - (floorsOf ws).sum < 0 then
    max 0 (targetInner - (adjFloors targetInner ws).sum)
  else targetInner - (floorsOf ws).sum

/-- Item indices ranked by descending fractional remainder (ties by original
order). -/
def rankedIdx (ws : List ℚ) : List ℕ :=
  (sortByFracDesc ((List.range ws.length).zip (ws.map (fun w => w - (⌊w⌋ : ℚ))))).map Prod.fst

/-- Floors plus the awarded extra pixels. -/
def awardWidths (sortedIdx : List ℕ) (n : ℕ) (r : ℤ) (fl : List ℤ) : List ℤ :=
  List.zipWith (fun (i : ℕ) (f : ℤ) => f + (pixelAward sortedIdx n r.toNat i : ℤ))
    (List.range fl.length) fl

/-- The final exactness safeguard: force the last width to absorb any
residual mismatch with the target.  (The source only touches the last
element when the sums differ; adding the difference unconditionally is the
same function.) -/
def forceLastWidth (targetInner : ℤ) (ws : List ℤ) : List ℤ :=
  if ws.isEmpty then ws
  else ws.dropLast ++ [ws.getLastD 0 + (targetInner - ws.sum)]

/-- Integer-width distribution for a stretched row (the `row.stretch` branch
of the second pass): floor the floating widths, shrink conservatively if the
floor sum already overshoots, award the remaining pixels by descending
fractional part, and finally force the last width to absorb any residual
mismatch. -/
def intWidthsStretch (targetInner : ℤ) (floatWidths : List ℚ) : List ℤ :=
  forceLastWidth targetInner
    (awardWidths (rankedIdx floatWidths) floatWidths.length
      (adjRemaining targetInner floatWidths) (adjFloors targetInner floatWidths))

/-- Second pass of `ImageWall.layout`: convert each row's floating widths to
integer pixel widths; stretched rows get the exact-fill distribution,
non-stretched rows simply round each width (clamped to at least 1). -/
def secondPass (C : ℤ) (g : ℕ) (rows : List RowTemp) : List PRow :=
  rows.map (fun row =>
    let n := row.aspects.length
    let totalGap := g * (n - 1)
    if row.stretch then
      ⟨intWidthsStretch (C - (totalGap : ℤ)) row.floatWidths,
        max 1 (jround row.rowHFloat), true⟩
    else
      ⟨row.floatWidths.map (fun w => max 1 (jround w)),
        max 1 (jround row.rowHFloat), false⟩)

/-- Realized inner width of a row: sum of widths plus internal gaps. -/
def rowInner (g : ℕ) (r : PRow) : ℤ :=
  r.widths.sum + (g : ℤ) * ((r.widths.length - 1 : ℕ) : ℤ)

/-- Set the stretch flag of the last row from its realized width (the body
of the defensive final check). -/
def setLastStretch (C : ℤ) (g : ℕ) : List PRow → List PRow
  | [] => []
  | [r] => [{ r with stretch := decide (C ≤ rowInner g r) }]
  | r :: rs => r :: setLastStretch C g rs

/-- Defensive final check of `ImageWall.layout`: when the policy is not
`justify`, re-derive the last row's stretch flag from its realized width. -/
def reclassify (align : LastRowAlign) (C : ℤ) (g : ℕ) (rows : List PRow) :
    List PRow :=
  if align = .justify then rows else setLastStretch C g rows

/-- An output rectangle (left, top, width, height). -/
structure Rect where
  x : ℤ
  y : ℤ
  w : ℤ
  h : ℤ
deriving DecidableEq

/-- Starting x of a row: non-stretched rows narrower than the container are
offset per the alignment policy (`center` → rounded half leftover, `right` →
clamped leftover, otherwise 0); stretched rows start at 0. -/
def startX (align : LastRowAlign) (C : ℤ) (g : ℕ) (r : PRow) : ℤ :=
  if r.stretch = false ∧ rowInner g r < C then
    match align with
    | .center => jround (((C - rowInner g r : ℤ) : ℚ) / 2)
    | .right => max 0 (C - rowInner g r)
    | _ => 0
  else 0

/-- Place one row's items left to right, each followed by the gap. -/
def rowRects (g : ℕ) (h : ℤ) : ℤ → ℤ → List ℤ → List Rect
  | _, _, [] => []
  | x, y, w :: ws => ⟨x, y, w, h⟩ :: rowRects g h (x + w + g) y ws

/-- Position all rows top to bottom (`y += height + gap` after each row). -/
def positionRows (align : LastRowAlign) (C : ℤ) (g : ℕ) :
    List PRow → ℤ → List (List Rect)
  | [], _ => []
  | r :: rs, y =>
    rowRects g r.height (startX align C g r) y r.widths ::
      positionRows align C g rs (y + r.height + g)

/-- Container height after the pass: `max(0, y - gap)` where `y` accumulated
`height + gap` per row. -/
def totalHeight (g : ℕ) (rows : List PRow) : ℤ :=
  max 0 ((rows.map (fun r => r.height + (g : ℤ))).sum - (g : ℤ))

/-- Rows after both passes and the defensive final check. -/
def layoutRows (C : ℤ) (targetH : ℚ) (g : ℕ) (align : LastRowAlign)
    (aspects : List ℚ) : List PRow :=
  reclassify align C g (secondPass C g (buildRows C targetH g align aspects))

/-- The whole layout pass: per-row rectangle lists and the total height.
(The source's early return for an empty item list produces the same result:
no rectangles and height 0.) -/
def layout (C : ℤ) (targetH : ℚ) (g : ℕ) (align : LastRowAlign)
    (aspects : List ℚ) : List (List Rect) × ℤ :=
  let rows := layoutRows C targetH g align aspects
  (positionRows align C g rows 0, totalHeight g rows)

end ImageWall

namespace LightBox

/-- A JavaScript index value: an integer or `NaN`.  `NaN` arises from the
`% 0` in `next()`/`prev()` when the image list is empty. -/
inductive JSNum where
  | nan : JSNum
  | num : ℤ → JSNum
deriving DecidableEq

/-- `index < 0` — false for `NaN` (every comparison with `NaN` is false). -/
def JSNum.ltZero : JSNum → Bool
  | .nan => false
  | .num i => i < 0

/-- `index >= n` — false for `NaN`. -/
def JSNum.geNat (a : JSNum) (n : ℕ) : Bool :=
  match a with
  | .nan => false
  | .num i => (n : ℤ) ≤ i

/-- Addition of an integer constant (`NaN` is absorbing). -/
def JSNum.add (a : JSNum) (k : ℤ) : JSNum :=
  match a with
  | .nan => .nan
  | .num i => .num (i + k)

/-- JavaScript `%` with a natural right operand: `x % 0` is `NaN`, and `%`
is the truncated remainder. -/
def JSNum.modNat (a : JSNum) (n : ℕ) : JSNum :=
  match a with
  | .nan => .nan
  | .num i => if n = 0 then .nan else .num (i.tmod n)

/-- A gallery item as seen by the lightbox: optional `data-src` and
optional `data-caption`. -/
structure Item where
  dataSrc : Option String
  caption : Option String
deriving DecidableEq

/-- An in-flight image load on a layer: the generation captured at issue
time, the source being loaded, and the caption captured by the closure. -/
structure Pending where
  gen : ℕ
  src : String
  cap : String
deriving DecidableEq

/-- The lightbox state: image list, current index, active layer (false =
layer 0), modal open flag, per-layer visibility and src, caption text and
visibility, the load-generation counter, and the per-layer in-flight load
(at most one per `img` element — assigning `src`/`onload` replaces it). -/
structure LBState where
  images : List Item
  currentIndex : JSNum
  activeLayer : Bool
  modalOpen : Bool
  visible0 : Bool
  visible1 : Bool
  src0 : String
  src1 : String
  captionText : String
  captionVisible : Bool
  loadId : ℕ
  pending0 : Option Pending
  pending1 : Option Pending
deriving DecidableEq

/-- The in-flight load of a layer. -/
def LBState.pendingAt (s : LBState) (layer : Bool) : Option Pending :=
  if layer then s.pending1 else s.pending0

/-- The visibility class of a layer. -/
def LBState.visibleAt (s : LBState) (layer : Bool) : Bool :=
  if layer then s.visible1 else s.visible0

/-- `this.images[index]` — `undefined` (none) for `NaN` or negative. -/
def LBState.elemAt (s : LBState) : JSNum → Option Item
  | .nan => none
  | .num i => if i < 0 then none else s.images.get? i.toNat

/-- `LightBox.show(index)`.  Out-of-range integer indices are ignored.
`currentIndex` is assigned before the `data-src` check, so a missing
reference aborts with the index already updated.  A present reference
opens the modal, bumps the generation counter, hides and retargets the
inactive layer, and installs the load (replacing any load already in
flight on that element).  A `NaN` index slips through the range guard
(both comparisons are false) and reading `images[NaN].dataset` throws a
`TypeError`; the throw is modelled as `Except.error` (the source mutates
`currentIndex` to `NaN` just before throwing). -/
def showAt (s : LBState) (index : JSNum) : Except String LBState :=
  if index.ltZero || index.geNat s.images.length then .ok s
  else
    let s1 := { s with currentIndex := index }
    match s1.elemAt index with
    | none => .error "TypeError: cannot read dataset of undefined"
    | some wrapper =>
      match wrapper.dataSrc with
      | none => .ok s1
      | some dataSrc =>
        let cap := wrapper.caption.getD ""
        let p : Pending := ⟨s1.loadId + 1, dataSrc, cap⟩
        if s1.activeLayer then
          .ok { s1 with modalOpen := true, loadId := s1.loadId + 1,
                        visible0 := false, src0 := dataSrc, pending0 := some p }
        else
          .ok { s1 with modalOpen := true, loadId := s1.loadId + 1,
                        visible1 := false, src1 := dataSrc, pending1 := some p }

/-- Completion of a layer's in-flight load (the `onload`/`onerror` handler
firing).  `success = false` is `onerror`: the candidate is discarded and
nothing else changes.  `onload` applies the visual effect — reveal the
loaded layer, hide the one that was active at issue time, flip the active
layer, update the caption — only when the captured generation still equals
the live counter; otherwise the completion is stale and is discarded. -/
def complete (s : LBState) (layer : Bool) (success : Bool) : LBState :=
  match s.pendingAt layer with
  | none => s
  | some p =>
    let s0 := if layer then { s with pending1 := none } else { s with pending0 := none }
    if success then
      if p.gen ≠ s.loadId then s0
      else
        let s1 := if layer
          then { s0 with visible1 := true, visible0 := false }
          else { s0 with visible0 := true, visible1 := false }
        { s1 with activeLayer := !s1.activeLayer,
                  captionText := p.cap,
                  captionVisible := p.cap ≠ "" }
    else s0

/-- `LightBox.hide()`: close the modal, hide the caption and both layers,
and bump the generation counter so in-flight loads become stale.  Pending
loads themselves are not removed (their handlers stay attached). -/
def hide (s : LBState) : LBState :=
  { s with modalOpen := false, captionVisible := false,
           visible0 := false, visible1 := false, loadId := s.loadId + 1 }

/-- `LightBox.next()`: `show((currentIndex + 1) % images.length)`. -/
def nextOp (s : LBState) : Except String LBState :=
  showAt s ((s.currentIndex.add 1).modNat s.images.length)

/-- `LightBox.prev()`:
`show((currentIndex - 1 + images.length) % images.length)`. -/
def prevOp (s : LBState) : Except String LBState :=
  showAt s (((s.currentIndex.add (-1)).add (s.images.length : ℤ)).modNat s.images.length)

/-- An externally observable operation on the viewer: a navigation call or
the completion of a layer's image load. -/
inductive Op where
  | navShow : JSNum → Op
  | navNext : Op
  | navPrev : Op
  | navHide : Op
  | loadDone : Bool → Bool → Op
deriving DecidableEq

/-- One step of the viewer state machine. -/
def step (s : LBState) : Op → Except String LBState
  | .navShow idx => showAt s idx
  | .navNext => nextOp s
  | .navPrev => prevOp s
  | .navHide => .ok (hide s)
  | .loadDone layer success => .ok (complete s layer success)

/-- Run a sequence of operations; a thrown error stops the run. -/
def runOps (s : LBState) : List Op → Except String LBState
  | [] => .ok s
  | op :: ops =>
    match step s op with
    | .ok s' => runOps s' ops
    | .error e => .error e

/-- The visible part of the viewer state: everything except the generation
counter and the in-flight load bookkeeping. -/
structure VisState where
  modalOpen : Bool
  visible0 : Bool
  visible1 : Bool
  src0 : String
  src1 : String
  captionText : String
  captionVisible : Bool
  activeLayer : Bool
  currentIndex : JSNum
deriving DecidableEq

/-- Projection to the visible state. -/
def visState (s : LBState) : VisState :=
  ⟨s.modalOpen, s.visible0, s.visible1, s.src0, s.src1,
    s.captionText, s.captionVisible, s.activeLayer, s.currentIndex⟩

/-- A pending load's generation never exceeds the live counter. -/
def genOkB (lid : ℕ) : Option Pending → Bool
  | none => true
  | some p => p.gen ≤ lid

/-- Well-formedness: both layers' pending generations are bounded by the
live counter (true of every state reachable from a pending-free state). -/
def lbWF (s : LBState) : Prop :=
  genOkB s.loadId s.pending0 = true ∧ genOkB s.loadId s.pending1 = true

/-- A viewer state on two items, the second of which lacks `data-src`. -/
def lbTwo : LBState :=
  ⟨[⟨some "a.jpg", none⟩, ⟨none, none⟩], .num 0, false, false, false, false,
    "", "", "", false, 0, none, none⟩

/-- C3 counterexample: `show(1)` on an in-range item with no `data-src`
aborts the navigation — but only after `currentIndex` has already been
assigned, so the claim that `currentIndex` is unchanged is false: here it
moves from 0 to 1. -/
theorem show_missing_ref_counterexample :
    showAt lbTwo (.num 1) = .ok { lbTwo with currentIndex := .num 1 }
    ∧ lbTwo.currentIndex = .num 0 ∧ JSNum.num 1 ≠ JSNum.num 0 := by
  refine ⟨rfl, rfl, by decide⟩

/-- C3 amended: `show(index)` on an in-range item with no full-resolution
reference aborts the navigation with no layer toggled, no load started, the
caption, modal, generation counter and pending loads unchanged — but
`currentIndex` is set to the requested index before the abort. -/
theorem show_missing_ref_sets_index (s : LBState) (i : ℤ) (item : Item)
    (h0 : 0 ≤ i) (h1 : i.toNat < s.images.length)
    (h2 : s.images[i.toNat]? = some item) (h3 : item.dataSrc = none) :
    showAt s (.num i) = .ok { s with currentIndex := .num i } := by
  have hguard : ((JSNum.num i).ltZero || (JSNum.num i).geNat s.images.length) = false := by
    simp only [JSNum.ltZero, JSNum.geNat, Bool.or_eq_false_iff]
    exact ⟨decide_eq_false (by omega), decide_eq_false (by omega)⟩
  have hnneg : ¬ i < 0 := by omega
  unfold showAt
  rw [hguard]
  simp only [Bool.false_eq_true, if_false, LBState.elemAt]
  simp [hnneg, h2, h3]

/-- Witness for the amended C3 at the concrete two-item state. -/
theorem show_missing_ref_sets_index_witness :
    showAt lbTwo (.num 1) = .ok { lbTwo with currentIndex := .num 1 } :=
  show_missing_ref_sets_index lbTwo 1 ⟨none, none⟩ (by decide) (by decide) rfl rfl

/-- A viewer state on a single item. -/
def lbOne : LBState :=
  ⟨[⟨some "a.jpg", none⟩], .num 0, false, false, false, false,
    "", "", "", false, 0, none, none⟩

/-- C6: with a non-empty item list and current index `i` in range, `next()`
delegates to `show((i+1) mod n)` and `prev()` to `show((i-1+n) mod n)`, the
results are never negative, `next()` at the last index wraps to 0, `prev()`
at 0 wraps to `n-1`, and on a single item both resolve to index 0. -/
theorem nav_wraparound (s : LBState) (i : ℤ) (n : ℕ)
    (hn : s.images.length = n) (hidx : s.currentIndex = .num i)
    (h0 : 0 ≤ i) (h1 : i < (n : ℤ)) (hpos : 0 < n) :
    nextOp s = showAt s (.num ((i + 1).tmod n)) ∧
    prevOp s = showAt s (.num ((i - 1 + n).tmod n)) ∧
    0 ≤ (i + 1).tmod n ∧ 0 ≤ (i - 1 + n).tmod n ∧
    (i = (n : ℤ) - 1 → (i + 1).tmod n = 0) ∧
    (i = 0 → (i - 1 + n).tmod n = (n : ℤ) - 1) ∧
    (n = 1 → (i + 1).tmod n = 0 ∧ (i - 1 + n).tmod n = 0) := by
  have hne : n ≠ 0 := hpos.ne'
  refine ⟨?_, ?_, ?_, ?_, ?_, ?_, ?_⟩
  · rw [nextOp, hidx, hn]
    simp [JSNum.add, JSNum.modNat, hne]
  · rw [prevOp, hidx, hn]
    simp only [JSNum.add, JSNum.modNat, if_neg hne]
    have harith : i + -1 + (n : ℤ) = i - 1 + n := by ring
    rw [harith]
  · exact Int.tmod_nonneg _ (by omega)
  · exact Int.tmod_nonneg _ (by omega)
  · intro h
    rw [h]
    have harith : (n : ℤ) - 1 + 1 = n := by ring
    rw [harith, Int.tmod_self]
  · intro h
    rw [h]
    have harith : (0 : ℤ) - 1 + n = (n : ℤ) - 1 := by ring
    rw [harith]
    exact Int.tmod_eq_of_lt (by omega) (by omega)
  · intro h
    subst h
    have hi : i = 0 := by omega
    subst hi
    constructor
    · simp
    · norm_num

/-- Witness for C6 on a single-item viewer at index 0. -/
theorem nav_wraparound_witness :
    nextOp lbOne = showAt lbOne (.num (((0 : ℤ) + 1).tmod 1)) ∧
    prevOp lbOne = showAt lbOne (.num (((0 : ℤ) - 1 + 1).tmod 1)) ∧
    0 ≤ ((0 : ℤ) + 1).tmod 1 ∧ 0 ≤ ((0 : ℤ) - 1 + 1).tmod 1 ∧
    ((0 : ℤ) = (1 : ℕ) - 1 → ((0 : ℤ) + 1).tmod 1 = 0) ∧
    ((0 : ℤ) = 0 → ((0 : ℤ) - 1 + 1).tmod 1 = ((1 : ℕ) : ℤ) - 1) ∧
    ((1 : ℕ) = 1 → ((0 : ℤ) + 1).tmod 1 = 0 ∧ ((0 : ℤ) - 1 + 1).tmod 1 = 0) :=
  nav_wraparound lbOne 0 1 rfl rfl (by decide) (by decide) (by decide)

/-- A viewer state on an empty item list. -/
def lbEmpty : LBState :=
  ⟨[], .num 0, false, false, false, false, "", "", "", false, 0, none, none⟩

/-- C7 counterexample: on an empty item list `next()` is not a no-op — the
wrap-around modulo divides by zero, producing `NaN`, which slips through the
range guard and faults when the undefined wrapper element is dereferenced. -/
theorem empty_nav_counterexample :
    nextOp lbEmpty = .error "TypeError: cannot read dataset of undefined" := rfl

/-- C7 amended: on an empty item list `show(i)` is a no-op for every integer
index (the range guard catches it, no state change and no error), but
`next()` and `prev()` raise an error instead of being no-ops: the modulo by
zero yields `NaN`, which evades the guard and faults on element access. -/
theorem empty_sequence_behavior (s : LBState) (h : s.images = []) :
    (∀ i : ℤ, showAt s (.num i) = .ok s) ∧
    (∃ e, nextOp s = .error e) ∧ (∃ e, prevOp s = .error e) := by
  have hshow : ∀ i : ℤ, showAt s (.num i) = .ok s := by
    intro i
    have hguard : ((JSNum.num i).ltZero || (JSNum.num i).geNat s.images.length) = true := by
      simp only [JSNum.ltZero, JSNum.geNat, h, List.length_nil, Bool.or_eq_true]
      by_cases hi : i < 0
      · exact Or.inl (by simpa using hi)
      · exact Or.inr (by simp; omega)
    unfold showAt
    rw [hguard]
    simp
  have hnan : showAt s .nan = .error "TypeError: cannot read dataset of undefined" := by
    unfold showAt
    simp [JSNum.ltZero, JSNum.geNat, LBState.elemAt]
  refine ⟨hshow, ?_, ?_⟩
  · refine ⟨"TypeError: cannot read dataset of undefined", ?_⟩
    rw [nextOp, h]
    cases s.currentIndex with
    | nan => simpa [JSNum.add, JSNum.modNat] using hnan
    | num j => simpa [JSNum.add, JSNum.modNat] using hnan
  · refine ⟨"TypeError: cannot read dataset of undefined", ?_⟩
    rw [prevOp, h]
    cases s.currentIndex with
    | nan => simpa [JSNum.add, JSNum.modNat] using hnan
    | num j => simpa [JSNum.add, JSNum.modNat] using hnan

/-- Witness for the amended C7 at the concrete empty-list state. -/
theorem empty_sequence_behavior_witness :
    showAt lbEmpty (.num 5) = .ok lbEmpty ∧
    (∃ e, nextOp lbEmpty = .error e) ∧ (∃ e, prevOp lbEmpty = .error e) := by
  obtain ⟨h1, h2, h3⟩ := empty_sequence_behavior lbEmpty rfl
  exact ⟨h1 5, h2, h3⟩

lemma showAt_loadId_mono (s s' : LBState) (idx : JSNum)
    (h : showAt s idx = .ok s') : s.loadId ≤ s'.loadId := by
  unfold showAt at h
  split at h
  · cases h; exact le_refl _
  · simp only [] at h
    split at h
    · cases h
    · split at h
      · cases h; exact le_refl _
      · split at h
        · cases h; simp
        · cases h; simp

lemma complete_loadId (s : LBState) (L b : Bool) : (complete s L b).loadId = s.loadId := by
  unfold complete
  cases hp : s.pendingAt L with
  | none => rfl
  | some p =>
    cases L <;> cases b <;> simp <;> split <;> rfl

lemma step_loadId_mono (s s' : LBState) (op : Op)
    (h : step s op = .ok s') : s.loadId ≤ s'.loadId := by
  cases op with
  | navShow idx => exact showAt_loadId_mono s s' idx h
  | navNext => exact showAt_loadId_mono s s' _ h
  | navPrev => exact showAt_loadId_mono s s' _ h
  | navHide => cases h; simp [hide]
  | loadDone layer success =>
    cases h
    rw [complete_loadId]

lemma runOps_loadId_mono (ops : List Op) (s s' : LBState)
    (h : runOps s ops = .ok s') : s.loadId ≤ s'.loadId := by
  induction ops generalizing s with
  | nil => unfold runOps at h; cases h; exact le_refl _
  | cons op ops ih =>
    unfold runOps at h
    rcases hstep : step s op with e | s1
    · rw [hstep] at h; cases h
    · rw [hstep] at h
      exact le_trans (step_loadId_mono s s1 op hstep) (ih s1 h)

lemma complete_stale_visState (s : LBState) (L b : Bool) (p : Pending)
    (hp : s.pendingAt L = some p) (hne : p.gen ≠ s.loadId) :
    visState (complete s L b) = visState s := by
  unfold complete
  rw [hp]
  cases b with
  | false =>
    simp only [Bool.false_eq_true, if_false]
    cases L <;> rfl
  | true =>
    simp only [if_true, if_pos hne]
    cases L <;> rfl

lemma showAt_wf (s s' : LBState) (idx : JSNum)
    (h : showAt s idx = .ok s') (hwf : lbWF s) : lbWF s' := by
  rcases hwf with ⟨h0, h1⟩
  unfold showAt at h
  split at h
  · cases h; exact ⟨h0, h1⟩
  · simp only [] at h
    split at h
    · cases h
    · split at h
      · cases h; exact ⟨h0, h1⟩
      · split at h
        · cases h
          constructor
          · simp [genOkB]
          · revert h1
            unfold genOkB
            cases s.pending1 with
            | none => simp
            | some q => intro hq; simp at hq ⊢; omega
        · cases h
          constructor
          · revert h0
            unfold genOkB
            cases s.pending0 with
            | none => simp
            | some q => intro hq; simp at hq ⊢; omega
          · simp [genOkB]

lemma hide_wf (s : LBState) (hwf : lbWF s) : lbWF (hide s) := by
  rcases hwf with ⟨h0, h1⟩
  constructor
  · revert h0
    unfold genOkB hide
    cases s.pending0 with
    | none => simp
    | some q => intro hq; simp at hq ⊢; omega
  · revert h1
    unfold genOkB hide
    cases s.pending1 with
    | none => simp
    | some q => intro hq; simp at hq ⊢; omega

lemma complete_wf (s : LBState) (L b : Bool) (hwf : lbWF s) : lbWF (complete s L b) := by
  rcases hwf with ⟨h0, h1⟩
  unfold complete
  cases hp : s.pendingAt L with
  | none => exact ⟨h0, h1⟩
  | some p =>
    by_cases hg : p.gen ≠ s.loadId
    · cases b with
      | false =>
        simp only [Bool.false_eq_true, if_false]
        cases L with
        | false => exact ⟨rfl, h1⟩
        | true => exact ⟨h0, rfl⟩
      | true =>
        simp only [if_true, if_pos hg]
        cases L with
        | false => exact ⟨rfl, h1⟩
        | true => exact ⟨h0, rfl⟩
    · cases b with
      | false =>
        simp only [Bool.false_eq_true, if_false]
        cases L with
        | false => exact ⟨rfl, h1⟩
        | true => exact ⟨h0, rfl⟩
      | true =>
        simp only [if_true, if_neg hg]
        cases L with
        | false => exact ⟨rfl, h1⟩
        | true => exact ⟨h0, rfl⟩

lemma step_wf (s s' : LBState) (op : Op)
    (h : step s op = .ok s') (hwf : lbWF s) : lbWF s' := by
  cases op with
  | navShow idx => exact showAt_wf s s' idx h hwf
  | navNext => exact showAt_wf s s' _ h hwf
  | navPrev => exact showAt_wf s s' _ h hwf
  | navHide => cases h; exact hide_wf s hwf
  | loadDone layer success => cases h; exact complete_wf s layer success hwf

lemma runOps_wf (ops : List Op) (s s' : LBState)
    (h : runOps s ops = .ok s') (hwf : lbWF s) : lbWF s' := by
  induction ops generalizing s with
  | nil => unfold runOps at h; cases h; exact hwf
  | cons op ops ih =>
    unfold runOps at h
    rcases hstep : step s op with e | s1
    · rw [hstep] at h; cases h
    · rw [hstep] at h
      exact ih s1 h (step_wf s s1 op hstep hwf)

lemma pendingAt_gen_le (s : LBState) (L : Bool) (p : Pending)
    (hwf : lbWF s) (hp : s.pendingAt L = some p) : p.gen ≤ s.loadId := by
  rcases hwf with ⟨h0, h1⟩
  cases L with
  | false =>
    unfold LBState.pendingAt at hp
    simp only [Bool.false_eq_true, if_false] at hp
    rw [hp] at h0
    simpa [genOkB] using h0
  | true =>
    unfold LBState.pendingAt at hp
    simp only [if_true] at hp
    rw [hp] at h1
    simpa [genOkB] using h1

/-- C2 counterexample: `show(0)` issues a load; a later `show(5)` call is
ignored by the range guard and does not bump the generation counter, so the
earlier load still matches on completion and does alter the visible state —
the claim's "a load issued on an earlier call that completes after a later
call never alters visible state" is false when the later call aborts. -/
theorem stale_load_counterexample :
    showAt lbOne (.num 0) =
      .ok { lbOne with modalOpen := true, loadId := 1, src1 := "a.jpg",
                       pending1 := some ⟨1, "a.jpg", ""⟩ }
    ∧ showAt { lbOne with modalOpen := true, loadId := 1, src1 := "a.jpg",
                          pending1 := some ⟨1, "a.jpg", ""⟩ } (.num 5) =
      .ok { lbOne with modalOpen := true, loadId := 1, src1 := "a.jpg",
                       pending1 := some ⟨1, "a.jpg", ""⟩ }
    ∧ visState (complete { lbOne with modalOpen := true, loadId := 1, src1 := "a.jpg",
                                      pending1 := some ⟨1, "a.jpg", ""⟩ } true true) ≠
      visState { lbOne with modalOpen := true, loadId := 1, src1 := "a.jpg",
                            pending1 := some ⟨1, "a.jpg", ""⟩ } := by
  refine ⟨rfl, rfl, ?_⟩
  intro h
  exact absurd (congrArg VisState.visible1 h) (by decide)

/-- C2 amended: every load captures the generation counter at issue time
and its completion applies the visual effect only when the captured value
still equals the live counter (first conjunct); the counter never decreases
along any run (second) and `close()` strictly increments it (third);
consequently a load still in flight when `close()` is called is stale from
then on — its completion leaves the visible state unchanged, so no layer
pops visible after closing (fourth) — and likewise for a load in flight
when a later call that itself issued a load occurs (fifth).  Later calls
that abort without bumping the counter (out-of-range index, missing
reference) do not invalidate in-flight loads. -/
theorem stale_load_invariant :
    (∀ (s : LBState) (L b : Bool),
      visState (complete s L b) = visState s ∨
        ∃ p, s.pendingAt L = some p ∧ b = true ∧ p.gen = s.loadId)
    ∧ (∀ (ops : List Op) (s s' : LBState), runOps s ops = .ok s' → s.loadId ≤ s'.loadId)
    ∧ (∀ s : LBState, (hide s).loadId = s.loadId + 1)
    ∧ (∀ (t s' : LBState) (ops : List Op) (L : Bool) (p : Pending) (b : Bool),
        lbWF t → t.pendingAt L = some p →
        runOps (hide t) ops = .ok s' → s'.pendingAt L = some p →
        visState (complete s' L b) = visState s')
    ∧ (∀ (t t' s' : LBState) (idx : JSNum) (ops : List Op) (L : Bool) (p : Pending) (b : Bool),
        lbWF t → t.pendingAt L = some p →
        showAt t idx = .ok t' → t.loadId < t'.loadId →
        runOps t' ops = .ok s' → s'.pendingAt L = some p →
        visState (complete s' L b) = visState s') := by
  refine ⟨?_, ?_, ?_, ?_, ?_⟩
  · intro s L b
    unfold complete
    rcases hp : s.pendingAt L with _ | p
    · exact Or.inl rfl
    · cases b with
      | false =>
        simp only [Bool.false_eq_true, if_false]
        exact Or.inl (by cases L <;> rfl)
      | true =>
        by_cases hg : p.gen = s.loadId
        · exact Or.inr ⟨p, rfl, rfl, hg⟩
        · simp only [if_true, if_pos hg]
          exact Or.inl (by cases L <;> rfl)
  · intro ops s s' h
    exact runOps_loadId_mono ops s s' h
  · intro s
    rfl
  · intro t s' ops L p b hwf hp hrun hp'
    have hle : p.gen ≤ t.loadId := pendingAt_gen_le t L p hwf hp
    have hmono : (hide t).loadId ≤ s'.loadId := runOps_loadId_mono ops (hide t) s' hrun
    have hstep : (hide t).loadId = t.loadId + 1 := rfl
    exact complete_stale_visState s' L b p hp' (by omega)
  · intro t t' s' idx ops L p b hwf hp hshow hbump hrun hp'
    have hle : p.gen ≤ t.loadId := pendingAt_gen_le t L p hwf hp
    have hmono : t'.loadId ≤ s'.loadId := runOps_loadId_mono ops t' s' hrun
    exact complete_stale_visState s' L b p hp' (by omega)

/-- Witness for the amended C2: a load in flight when the viewer is closed
completes afterwards without any visible effect. -/
theorem stale_load_invariant_witness :
    visState (complete (hide { lbOne with modalOpen := true, loadId := 1, src1 := "a.jpg",
                                          pending1 := some ⟨1, "a.jpg", ""⟩ }) true true) =
    visState (hide { lbOne with modalOpen := true, loadId := 1, src1 := "a.jpg",
                                pending1 := some ⟨1, "a.jpg", ""⟩ }) :=
  stale_load_invariant.2.2.2.1
    { lbOne with modalOpen := true, loadId := 1, src1 := "a.jpg",
                 pending1 := some ⟨1, "a.jpg", ""⟩ }
    (hide { lbOne with modalOpen := true, loadId := 1, src1 := "a.jpg",
                       pending1 := some ⟨1, "a.jpg", ""⟩ })
    [] true ⟨1, "a.jpg", ""⟩ true ⟨rfl, rfl⟩ rfl rfl rfl
end LightBox

namespace ImageWall

lemma sum_dropLast_getLastD (l : List ℤ) (h : l ≠ []) :
    l.dropLast.sum + l.getLastD 0 = l.sum := by
  induction l using List.reverseRecOn with
  | nil => exact absurd rfl h
  | append_singleton ys x _ =>
    rw [List.dropLast_concat, List.getLastD_concat, List.sum_append]
    simp

lemma forceLastWidth_sum (t : ℤ) (ws : List ℤ) (h : ws ≠ []) :
    (forceLastWidth t ws).sum = t := by
  unfold forceLastWidth
  rw [if_neg (by simpa using h)]
  rw [List.sum_append]
  have := sum_dropLast_getLastD ws h
  simp only [List.sum_cons, List.sum_nil]
  omega

lemma forceLastWidth_length (t : ℤ) (ws : List ℤ) :
    (forceLastWidth t ws).length = ws.length := by
  unfold forceLastWidth
  by_cases h : ws = []
  · subst h; simp
  · rw [if_neg (by simpa using h)]
    have hl : 1 ≤ ws.length := List.length_pos.mpr h
    simp only [List.length_append, List.length_dropLast, List.length_cons, List.length_nil]
    omega

lemma shrinkAux_length (fs : List ℤ) (t : ℤ) : (shrinkAux fs t).1.length = fs.length := by
  induction fs generalizing t with
  | nil => simp [shrinkAux]
  | cons f fs ih => simp [shrinkAux, ih]

lemma adjFloors_length (t : ℤ) (ws : List ℚ) : (adjFloors t ws).length = ws.length := by
  unfold adjFloors
  by_cases h : t - (floorsOf ws).sum < 0
  · rw [if_pos h, shrinkAux_length]; simp [floorsOf]
  · rw [if_neg h]; simp [floorsOf]

lemma awardWidths_length (si : List ℕ) (n : ℕ) (r : ℤ) (fl : List ℤ) :
    (awardWidths si n r fl).length = fl.length := by
  simp [awardWidths]

lemma intWidthsStretch_length (t : ℤ) (ws : List ℚ) :
    (intWidthsStretch t ws).length = ws.length := by
  unfold intWidthsStretch
  rw [forceLastWidth_length, awardWidths_length, adjFloors_length]

lemma intWidthsStretch_sum (t : ℤ) (ws : List ℚ) (h : ws ≠ []) :
    (intWidthsStretch t ws).sum = t := by
  unfold intWidthsStretch
  apply forceLastWidth_sum
  intro hc
  have := congrArg List.length hc
  rw [awardWidths_length, adjFloors_length] at this
  simp only [List.length_nil] at this
  exact h (List.length_eq_zero.mp this)

/-- Shape facts about every row emitted by the accumulation loop: it is a
closed full row of the items accumulated since the last reset. -/
lemma buildRowsAux_shape (C : ℤ) (targetH : ℚ) (g : ℕ) :
    ∀ (rest cursor : List ℚ) (row : RowTemp),
      row ∈ (buildRowsAux C targetH g rest cursor).1 →
      row.stretch = true ∧ row.aspects ≠ [] ∧
        row.floatWidths = row.aspects.map (fun x => x * row.rowHFloat) ∧
        row.rowHFloat = rowHFor C g row.aspects ∧
        (C : ℚ) ≤ expectedW targetH g row.aspects := by
  intro rest
  induction rest with
  | nil => intro cursor row hmem; simp [buildRowsAux] at hmem
  | cons a rest ih =>
    intro cursor row hmem
    by_cases hc : (C : ℚ) ≤ expectedW targetH g (cursor ++ [a])
    · rw [buildRowsAux, if_pos hc] at hmem
      rcases List.mem_cons.mp hmem with h | h
      · subst h
        refine ⟨rfl, by simp, rfl, rfl, hc⟩
      · exact ih [] row h
    · rw [buildRowsAux, if_neg hc] at hmem
      exact ih (cursor ++ [a]) row hmem

/-- Shape facts about every row of the first pass including last-row
handling: every row is non-empty, its float widths are the aspects scaled by
its height, and a non-stretched row only arises as the trailing row of a
non-justify policy at the target height. -/
lemma buildRows_shape (C : ℤ) (targetH : ℚ) (g : ℕ) (align : LastRowAlign)
    (aspects : List ℚ) (row : RowTemp)
    (hmem : row ∈ buildRows C targetH g align aspects) :
    row.aspects ≠ [] ∧ row.floatWidths = row.aspects.map (fun x => x * row.rowHFloat) := by
  unfold buildRows at hmem
  by_cases hemp : (buildRowsAux C targetH g aspects []).2.isEmpty
  · rw [if_pos hemp] at hmem
    have := buildRowsAux_shape C targetH g aspects [] row hmem
    exact ⟨this.2.1, this.2.2.1⟩
  · rw [if_neg hemp] at hmem
    have hne : (buildRowsAux C targetH g aspects []).2 ≠ [] := by
      intro hc; rw [hc] at hemp; simp at hemp
    by_cases hj : align = LastRowAlign.justify
    · rw [if_pos hj] at hmem
      rcases List.mem_append.mp hmem with h | h
      · have := buildRowsAux_shape C targetH g aspects [] row h
        exact ⟨this.2.1, this.2.2.1⟩
      · rcases List.mem_singleton.mp h with rfl
        exact ⟨hne, rfl⟩
    · rw [if_neg hj] at hmem
      rcases List.mem_append.mp hmem with h | h
      · have := buildRowsAux_shape C targetH g aspects [] row h
        exact ⟨this.2.1, this.2.2.1⟩
      · rcases List.mem_singleton.mp h with rfl
        exact ⟨hne, rfl⟩

/-- Every row of the first pass whose stretch flag is false came from the
non-justify trailing branch. -/
lemma buildRows_stretch_of_justify (C : ℤ) (targetH : ℚ) (g : ℕ)
    (aspects : List ℚ) (row : RowTemp)
    (hmem : row ∈ buildRows C targetH g LastRowAlign.justify aspects) :
    row.stretch = true := by
  unfold buildRows at hmem
  by_cases hemp : (buildRowsAux C targetH g aspects []).2.isEmpty
  · rw [if_pos hemp] at hmem
    exact (buildRowsAux_shape C targetH g aspects [] row hmem).1
  · rw [if_neg hemp, if_pos rfl] at hmem
    rcases List.mem_append.mp hmem with h | h
    · exact (buildRowsAux_shape C targetH g aspects [] row h).1
    · rcases List.mem_singleton.mp h with rfl
      rfl


/-- C1: for every layout pass (any aspect-ratio sequence, container inner
width, target row height, gap and last-row policy) and every row marked
`stretch = true`, the integer widths produced by the distribution step
satisfy `sum(widths) + gap * (n - 1) = containerInnerWidth` exactly, where
`n` is the number of items in the row. -/
theorem stretched_row_sum_exact (C : ℤ) (targetH : ℚ) (g : ℕ)
    (align : LastRowAlign) (aspects : List ℚ) (prow : PRow)
    (hmem : prow ∈ secondPass C g (buildRows C targetH g align aspects))
    (hs : prow.stretch = true) :
    prow.widths.sum + (g : ℤ) * ((prow.widths.length - 1 : ℕ) : ℤ) = C := by
  rcases List.mem_map.mp hmem with ⟨row, hrow, hf⟩
  have hshape := buildRows_shape C targetH g align aspects row hrow
  by_cases hst : row.stretch
  · rw [hst] at hf
    simp only [if_pos] at hf
    subst hf
    have hlen' : row.floatWidths.length = row.aspects.length := by
      rw [hshape.2, List.length_map]
    have hnil : row.floatWidths ≠ [] := by
      intro hc
      apply hshape.1
      have := congrArg List.length hc
      rw [hlen'] at this
      exact List.length_eq_zero.mp this
    simp only
    rw [intWidthsStretch_sum _ _ hnil, intWidthsStretch_length, hlen']
    have hpos : 1 ≤ row.aspects.length := List.length_pos.mpr hshape.1
    push_cast [Nat.cast_sub hpos]
    ring
  · rw [Bool.not_eq_true] at hst
    rw [hst] at hf
    simp only [Bool.false_eq_true, if_neg, ite_false] at hf
    rw [← hf] at hs
    simp at hs

/-- Witness for C1: a single item of aspect ratio 6 at container width 1000,
target height 200, gap 6 closes as a stretched row of one whose width sums
to the container width. -/
theorem stretched_row_sum_exact_witness :
    (PRow.mk [1000] 167 true).widths.sum +
      ((6 : ℕ) : ℤ) * (((PRow.mk [1000] 167 true).widths.length - 1 : ℕ) : ℤ) = 1000 := by
  have hmem : (PRow.mk [1000] 167 true) ∈
      secondPass 1000 6 (buildRows 1000 200 6 .left [(6 : ℚ)]) := by
    have h : secondPass 1000 6 (buildRows 1000 200 6 .left [(6 : ℚ)]) =
        [⟨[1000], 167, true⟩] := by
      norm_num [secondPass, buildRows, buildRowsAux, expectedW, rowHFor,
        intWidthsStretch, floorsOf, adjFloors, adjRemaining, rankedIdx, awardWidths,
        forceLastWidth, sortByFracDesc, insertByFracDesc, pixelAward, jround,
        List.range_succ]
    rw [h]
    exact List.mem_singleton.mpr rfl
  exact stretched_row_sum_exact 1000 200 6 .left [(6 : ℚ)] ⟨[1000], 167, true⟩ hmem rfl

/-- C4 counterexample: at container width 1000, target height 200, gap 6,
policy left, the aspect sequence [0.001, 10] closes as one stretched row
whose distribution gives the first item width 0 — the claim that every
per-item width of the output rectangles is at least 1 is false. -/
theorem min_width_counterexample :
    ¬ ∀ rects ∈ (layout 1000 200 6 .left [1/1000, 10]).1, ∀ r ∈ rects, 1 ≤ r.w := by
  have hfr : ¬ (Int.fract ((9940000 : ℚ)/10001) ≤ Int.fract ((994 : ℚ)/10001)) := by
    rw [Int.fract, Int.fract]; norm_num
  have h1 : secondPass 1000 6 (buildRows 1000 200 6 .left [1/1000, 10]) =
      [⟨[0, 994], 99, true⟩] := by
    norm_num [secondPass, buildRows, buildRowsAux, expectedW, rowHFor,
      intWidthsStretch, floorsOf, adjFloors, adjRemaining, rankedIdx, awardWidths,
      forceLastWidth, sortByFracDesc, insertByFracDesc, pixelAward, jround,
      List.range_succ, hfr]
  have h2 : layoutRows 1000 200 6 .left [1/1000, 10] = [⟨[0, 994], 99, true⟩] := by
    rw [layoutRows, h1]
    norm_num [reclassify, setLastStretch, rowInner]
  have hpos : (layout 1000 200 6 .left [1/1000, 10]).1 =
      [[⟨0, 0, 0, 99⟩, ⟨6, 0, 994, 99⟩]] := by
    simp only [layout]
    rw [h2]
    norm_num [positionRows, rowRects, startX, rowInner]
  intro hall
  have h3 := hall [⟨0, 0, 0, 99⟩, ⟨6, 0, 994, 99⟩]
    (by rw [hpos]; exact List.mem_singleton.mpr rfl) ⟨0, 0, 0, 99⟩ (by simp)
  exact absurd h3 (by norm_num)

/-- C4 amended: in every non-stretched row every per-item integer width is
at least 1 (each is `max(1, round(w))`); stretched rows do not have this
guarantee — their distribution can emit a zero width under extreme aspect
ratios, as `min_width_counterexample` shows. -/
theorem nonstretched_row_min_width (C : ℤ) (targetH : ℚ) (g : ℕ)
    (align : LastRowAlign) (aspects : List ℚ) (prow : PRow)
    (hmem : prow ∈ secondPass C g (buildRows C targetH g align aspects))
    (hs : prow.stretch = false) :
    ∀ w ∈ prow.widths, 1 ≤ w := by
  rcases List.mem_map.mp hmem with ⟨row, _, hf⟩
  by_cases hst : row.stretch
  · rw [hst] at hf
    simp only [if_pos] at hf
    rw [← hf] at hs
    simp at hs
  · rw [Bool.not_eq_true] at hst
    rw [hst] at hf
    simp only [Bool.false_eq_true, if_neg, ite_false] at hf
    subst hf
    intro w hw
    rcases List.mem_map.mp hw with ⟨q, _, hq⟩
    rw [← hq]
    exact le_max_left 1 _

/-- Witness for the amended C4: two square items that do not fill the
container stay a non-stretched trailing row with widths 200 each; the first
of those widths is at least 1. -/
theorem nonstretched_row_min_width_witness :
    (1 : ℤ) ≤ (PRow.mk [200, 200] 200 false).widths.getD 0 0 := by
  have hlj : ¬ (LastRowAlign.left = LastRowAlign.justify) := by decide
  have h : secondPass 1000 6 (buildRows 1000 200 6 .left [(1 : ℚ), 1]) =
      [⟨[200, 200], 200, false⟩] := by
    norm_num [secondPass, buildRows, buildRowsAux, expectedW, rowHFor, jround, if_neg hlj]
  exact nonstretched_row_min_width 1000 200 6 .left [(1 : ℚ), 1] ⟨[200, 200], 200, false⟩
    (by rw [h]; exact List.mem_singleton.mpr rfl) rfl
    ((PRow.mk [200, 200] 200 false).widths.getD 0 0) (by simp)

/-- Boundary invariant of the accumulation loop: assuming every prefix of
the current cursor still projects below the container width, every emitted
row's proper prefixes project below the container width, and so does every
prefix of the leftover cursor. -/
lemma expectedW_nil (targetH : ℚ) (g : ℕ) : expectedW targetH g [] = 0 := by
  simp [expectedW]

lemma empty_cursor_boundary (C : ℤ) (targetH : ℚ) (g : ℕ) (hC : 0 < C) :
    ∀ k, k ≤ ([] : List ℚ).length → expectedW targetH g (([] : List ℚ).take k) < C := by
  intro k hk
  have hk0 : k = 0 := Nat.le_zero.mp (by simpa using hk)
  subst hk0
  rw [List.take_nil, expectedW_nil]
  exact_mod_cast hC

lemma buildRowsAux_boundary (C : ℤ) (targetH : ℚ) (g : ℕ) (hC : 0 < C) :
    ∀ (rest cursor : List ℚ),
      (∀ k, k ≤ cursor.length → expectedW targetH g (cursor.take k) < C) →
      (∀ row ∈ (buildRowsAux C targetH g rest cursor).1,
        ∀ k, k < row.aspects.length → expectedW targetH g (row.aspects.take k) < C)
      ∧ (∀ k, k ≤ (buildRowsAux C targetH g rest cursor).2.length →
          expectedW targetH g ((buildRowsAux C targetH g rest cursor).2.take k) < C) := by
  have hbase := empty_cursor_boundary C targetH g hC
  intro rest
  induction rest with
  | nil =>
    intro cursor hinv
    constructor
    · intro row hmem; simp [buildRowsAux] at hmem
    · simpa [buildRowsAux] using hinv
  | cons a rest ih =>
    intro cursor hinv
    by_cases hc : (C : ℚ) ≤ expectedW targetH g (cursor ++ [a])
    · rw [buildRowsAux, if_pos hc]
      constructor
      · intro row hmem
        rcases List.mem_cons.mp hmem with h | h
        · subst h
          intro k hk
          simp only [List.length_append, List.length_singleton] at hk
          have hk' : k ≤ cursor.length := by omega
          rw [List.take_append_of_le_length hk']
          exact hinv k hk'
        · exact (ih [] hbase).1 row h
      · exact (ih [] hbase).2
    · rw [buildRowsAux, if_neg hc]
      apply ih (cursor ++ [a])
      intro k hk
      simp only [List.length_append, List.length_singleton] at hk
      by_cases hk' : k ≤ cursor.length
      · rw [List.take_append_of_le_length hk']
        exact hinv k hk'
      · have hk2 : k = cursor.length + 1 := by omega
        rw [hk2, List.take_of_length_le (by simp)]
        exact lt_of_not_le hc

/-- C5: a row closes exactly when the projected width
`aspectSum * targetRowHeight + gap * (count - 1)` first reaches or exceeds
the container inner width (every proper prefix projects strictly below it),
and the closed row's height is
`(containerInnerWidth - gap * (count - 1)) / aspectSum`; in particular a
single item alone meeting the container width closes as a full row of one
of height `containerInnerWidth / aspect`. -/
theorem row_close_boundary (C : ℤ) (targetH : ℚ) (g : ℕ) (hC : 0 < C) :
    (∀ (aspects : List ℚ) (row : RowTemp),
      row ∈ (buildRowsAux C targetH g aspects []).1 →
      (C : ℚ) ≤ expectedW targetH g row.aspects
      ∧ (∀ k, k < row.aspects.length → expectedW targetH g (row.aspects.take k) < C)
      ∧ row.rowHFloat =
          ((C : ℚ) - (g : ℚ) * ((row.aspects.length - 1 : ℕ) : ℚ)) / row.aspects.sum
      ∧ row.stretch = true)
    ∧ (∀ (a : ℚ) (align : LastRowAlign), (C : ℚ) ≤ a * targetH →
        ∃ row : RowTemp, buildRows C targetH g align [a] = [row] ∧
          row.aspects = [a] ∧ row.rowHFloat = (C : ℚ) / a ∧ row.stretch = true) := by
  constructor
  · intro aspects row hmem
    have hshape := buildRowsAux_shape C targetH g aspects [] row hmem
    have hbnd := (buildRowsAux_boundary C targetH g hC aspects []
      (empty_cursor_boundary C targetH g hC)).1 row hmem
    exact ⟨hshape.2.2.2.2, hbnd, hshape.2.2.2.1, hshape.1⟩
  · intro a align hclose
    have hexp : expectedW targetH g [a] = a * targetH := by
      simp [expectedW]
    have hrowH : rowHFor C g [a] = (C : ℚ) / a := by
      simp [rowHFor]
    have haux : buildRowsAux C targetH g [a] [] =
        ([⟨[a], [a * rowHFor C g [a]], rowHFor C g [a], true⟩], []) := by
      rw [buildRowsAux]
      simp only [List.nil_append]
      rw [if_pos (by rw [hexp]; exact hclose)]
      simp [buildRowsAux]
    refine ⟨⟨[a], [a * rowHFor C g [a]], rowHFor C g [a], true⟩, ?_, rfl, hrowH, rfl⟩
    simp only [buildRows, haux]
    simp

/-- Witness for C5: at container width 1000, target height 200, gap 6, the
single aspect ratio 6 projects to 1200 ≥ 1000 and closes as a stretched row
of one with exact height 1000/6. -/
theorem row_close_boundary_witness :
    ((1000 : ℚ) ≤ expectedW 200 6 [6]
      ∧ ((6 : ℚ) * 200 ≥ 1000)
      ∧ ∃ row : RowTemp, buildRows 1000 200 6 .left [(6 : ℚ)] = [row] ∧
          row.aspects = [6] ∧ row.rowHFloat = (1000 : ℚ) / 6 ∧ row.stretch = true) := by
  have h := (row_close_boundary 1000 200 6 (by norm_num)).2 6 .left (by norm_num)
  refine ⟨by norm_num [expectedW], by norm_num, h⟩

lemma rowRects_cons (g : ℕ) (h x y : ℤ) (w : ℤ) (ws : List ℤ) :
    rowRects g h x y (w :: ws) = ⟨x, y, w, h⟩ :: rowRects g h (x + w + g) y ws := rfl

/-- C8: for every non-stretched row whose realized inner width is below the
container inner width, the first item's x offset is 0 under the left policy,
`round((containerInnerWidth - rowInnerWidth)/2)` under center, and
`max(0, containerInnerWidth - rowInnerWidth)` under right. -/
theorem nonstretched_row_alignment (align : LastRowAlign) (C : ℤ) (g : ℕ)
    (rows : List PRow) (y : ℤ) (i : ℕ) (r : PRow)
    (hr : rows[i]? = some r) (hs : r.stretch = false)
    (hlt : rowInner g r < C) (hne : r.widths ≠ []) :
    ∃ rects, (positionRows align C g rows y)[i]? = some rects ∧
      rects.head?.map Rect.x = some (match align with
        | .center => jround (((C - rowInner g r : ℤ) : ℚ) / 2)
        | .right => max 0 (C - rowInner g r)
        | _ => 0) := by
  induction rows generalizing i y with
  | nil => simp at hr
  | cons r0 rs ih =>
    cases i with
    | zero =>
      simp only [List.getElem?_cons_zero, Option.some.injEq] at hr
      subst hr
      refine ⟨rowRects g r0.height (startX align C g r0) y r0.widths,
        by simp only [positionRows, List.getElem?_cons_zero], ?_⟩
      rcases List.exists_cons_of_ne_nil hne with ⟨w, ws, hw⟩
      rw [hw, rowRects_cons]
      simp only [List.head?_cons, Option.map_some]
      unfold startX
      rw [if_pos ⟨hs, hlt⟩]
      cases align <;> rfl
    | succ j =>
      simp only [List.getElem?_cons_succ] at hr
      have h := ih (y + r0.height + g) j hr
      simpa only [positionRows, List.getElem?_cons_succ] using h

/-- Witness for C8: a row of inner width 920 (widths 450 and 464 with gap 6)
in a container of width 1000 under the center policy starts at x = 40. -/
theorem nonstretched_row_alignment_witness :
    ∃ rects, (positionRows .center 1000 6 [⟨[450, 464], 200, false⟩] 0)[0]? = some rects ∧
      rects.head?.map Rect.x = some 40 := by
  obtain ⟨rects, h1, h2⟩ := nonstretched_row_alignment .center 1000 6
    [⟨[450, 464], 200, false⟩] 0 0 ⟨[450, 464], 200, false⟩ rfl rfl
    (by norm_num [rowInner]) (by simp)
  refine ⟨rects, h1, h2.trans ?_⟩
  norm_num [rowInner, jround]

/-- C9: the layout computation is a pure function of its inputs —
deterministic (equal inputs give identical rectangle sets and total height)
and idempotent (re-running on the same inputs returns the same output).
Rows are rebuilt from scratch on every pass: no state flows between runs. -/
theorem layout_deterministic (C₁ C₂ : ℤ) (t₁ t₂ : ℚ) (g₁ g₂ : ℕ)
    (a₁ a₂ : LastRowAlign) (as₁ as₂ : List ℚ)
    (hC : C₁ = C₂) (ht : t₁ = t₂) (hg : g₁ = g₂) (ha : a₁ = a₂) (has : as₁ = as₂) :
    layout C₁ t₁ g₁ a₁ as₁ = layout C₂ t₂ g₂ a₂ as₂ := by
  subst hC; subst ht; subst hg; subst ha; subst has; rfl

/-- Witness for C9 at a concrete input. -/
theorem layout_deterministic_witness :
    layout 1000 200 6 .left [(1 : ℚ), 2] = layout 1000 200 6 .left [(1 : ℚ), 2] :=
  layout_deterministic 1000 1000 200 200 6 6 .left .left [(1 : ℚ), 2] [(1 : ℚ), 2]
    rfl rfl rfl rfl rfl

/-- C10: under the justify policy the defensive reclassification step is the
identity (it is guarded on the policy not being justify), so every row of
the finished pass — the last row included — keeps `stretch = true`. -/
theorem justify_stretch_authoritative (C : ℤ) (targetH : ℚ) (g : ℕ) :
    (∀ rows : List PRow, reclassify .justify C g rows = rows)
    ∧ (∀ (aspects : List ℚ) (prow : PRow),
        prow ∈ layoutRows C targetH g .justify aspects → prow.stretch = true) := by
  have hid : ∀ rows : List PRow, reclassify .justify C g rows = rows := by
    intro rows; simp [reclassify]
  refine ⟨hid, ?_⟩
  intro aspects prow hmem
  rw [layoutRows, hid] at hmem
  rcases List.mem_map.mp hmem with ⟨row, hrow, hf⟩
  have hst := buildRows_stretch_of_justify C targetH g aspects row hrow
  rw [hst] at hf
  simp only [if_pos] at hf
  rw [← hf]

/-- Witness for C10: justify on a single square item yields one row that
stays stretched through the whole pass. -/
theorem justify_stretch_authoritative_witness :
    reclassify .justify 1000 6 [⟨[5], 10, false⟩] = [⟨[5], 10, false⟩]
    ∧ (PRow.mk [1000] 1000 true).stretch = true := by
  refine ⟨(justify_stretch_authoritative 1000 200 6).1 [⟨[5], 10, false⟩], ?_⟩
  have h : layoutRows 1000 200 6 .justify [(1 : ℚ)] = [⟨[1000], 1000, true⟩] := by
    norm_num [layoutRows, reclassify, secondPass, buildRows, buildRowsAux, expectedW,
      rowHFor, intWidthsStretch, floorsOf, adjFloors, adjRemaining, rankedIdx,
      awardWidths, forceLastWidth, sortByFracDesc, insertByFracDesc, pixelAward,
      jround, List.range_succ]
  exact (justify_stretch_authoritative 1000 200 6).2 [(1 : ℚ)] ⟨[1000], 1000, true⟩
    (by rw [h]; exact List.mem_singleton.mpr rfl)


end ImageWall
